import Mathlib

/-!
Verification of the deterministic cache-world core of the GeoCoin Carrier
repository (`src/main.ts` and the two earlier revisions of the same program).

The embedding is shallow: coordinates and seed values are rationals (the
source uses JS numbers; all facts proved here are exact-arithmetic facts about
the formulas in the source), coin records are Lean structures mirroring the
TypeScript interfaces, the `localStorage` key-value store is an association
list of strings (lists of characters), and `JSON.stringify` / `JSON.parse`
restricted to the memento shape `\x7b"coins":[\x7b"serial":"..."\x7d,...]\x7d`
produced by `Cache.toMomento` are implemented concretely (including JS string
escaping), with `JSON.parse` returning `Option` — `none` models the
`SyntaxError` a malformed string raises (the source installs no handler).
-/

namespace GeoCoin

/-- `interface Coin \x7b serial: string \x7d` from `src/main.ts` (line 22). -/
structure Coin where
  serial : List Char
deriving DecidableEq

/-- `CONFIG.TILE_DEGREES = 1e-4` (`src/main.ts` line 12). -/
def TILE_DEGREES : ℚ := 1 / 10000

/-- `CONFIG.NEIGHBORHOOD_SIZE = 8` (`src/main.ts` line 13). -/
def NEIGHBORHOOD_SIZE : ℕ := 8

/-- `CONFIG.CACHE_SPAWN_PROBABILITY = 0.1` (`src/main.ts` line 14). -/
def CACHE_SPAWN_PROBABILITY : ℚ := 1 / 10

/-- `CacheManager.updateCache` (`src/main.ts` lines 147-158).

If the source inventory is non-empty it pops the last coin of the source,
pushes it onto the target, and writes the *target* under the `localStorage`
key `"playerCoin"`; it always returns the target.  The result triple is
`(targetInventory, sourceInventory, playerCoin-write)` after the call, where
the third component is `some v` when `localStorage.setItem("playerCoin", v)`
happened and `none` when it did not. -/
def updateCache (targetInventory sourceInventory : List Coin) :
    List Coin × List Coin × Option (List Coin) :=
  match sourceInventory.getLast? with
  | some coin =>
      (targetInventory ++ [coin], sourceInventory.dropLast,
        some (targetInventory ++ [coin]))
  | none => (targetInventory, sourceInventory, none)

/-- `CacheManager.getKey` (`src/main.ts` lines 189-193):
`i = Math.floor(lat * 100000)`, `j = Math.floor(lon * 100000)`; the storage
key is the (injective) rendering `i:j` of this pair. -/
def getKey (lat lng : ℚ) : ℤ × ℤ :=
  (⌊lat * 100000⌋, ⌊lng * 100000⌋)

/-- Modelled from the spec: `toCell(location)` with
`i = floor(lat / tileSize)`, `j = floor(lng / tileSize)` and
`tileSize = TILE_DEGREES = 1e-4` — the claimed cell mapping, for comparison
with `getKey` from the source. -/
def specToCell (lat lng : ℚ) : ℤ × ℤ :=
  (⌊lat / TILE_DEGREES⌋, ⌊lng / TILE_DEGREES⌋)

/-- The spawn check of `populateNeighborhood` (`src/main.ts` line 83 and the
identical line 227 of the first unnamed revision):
`luck([y, x].toString()) <= CONFIG.CACHE_SPAWN_PROBABILITY`, as a function of
the seed value returned by `luck`. -/
def spawnDecision (s : ℚ) : Bool :=
  decide (s ≤ CACHE_SPAWN_PROBABILITY)

/-- Modelled from the spec: `spawnDecision(cell) -> bool: seed(cell) <
spawnProbability` — the claimed strict comparison, for comparison with the
source's check. -/
def specSpawnDecision (s : ℚ) : Bool :=
  decide (s < CACHE_SPAWN_PROBABILITY)

end GeoCoin

namespace GeoCoin

/-- Claim C7: `collect` direction of `updateCache` — on a non-empty cache it
removes exactly the last coin of the cache's ordered coin list (LIFO) and
appends it to the player inventory (also persisting the updated inventory);
on an empty cache it changes nothing, writes nothing and does not throw
(the function is total and returns the pair unchanged). -/
theorem c7_collect_lifo (cachedCoins playerInventory : List Coin) :
    (∀ (h : cachedCoins ≠ []),
        updateCache playerInventory cachedCoins =
          (playerInventory ++ [cachedCoins.getLast h], cachedCoins.dropLast,
            some (playerInventory ++ [cachedCoins.getLast h]))) ∧
    (cachedCoins = [] →
        updateCache playerInventory cachedCoins =
          (playerInventory, cachedCoins, none)) := by
  constructor
  · intro h
    rw [updateCache, List.getLast?_eq_getLast _ h]
  · rintro rfl
    rfl

/-- Witness for C7 at a concrete input: collecting from the one-coin cache
`[⟨"a"⟩]` with empty inventory moves that coin, and collecting from an empty
cache is a no-op. -/
theorem c7_collect_lifo_witness :
    updateCache ([] : List Coin) [⟨['a']⟩] =
      ([⟨['a']⟩], [], some [⟨['a']⟩]) ∧
    updateCache ([⟨['a']⟩] : List Coin) [] = ([⟨['a']⟩], [], none) := by
  constructor
  · have h := (c7_collect_lifo [⟨['a']⟩] ([] : List Coin)).1 (by decide)
    simpa using h
  · exact (c7_collect_lifo [] [⟨['a']⟩]).2 rfl

/-- Claim C3: for every `updateCache(target, source)` call with non-empty
source, the value written under the fixed `localStorage` key `"playerCoin"`
is the *target* collection, and the returned value (which `placeCache` hands
to `updateInventoryCallback` as the new player inventory) is that same target
collection — regardless of direction.  Instantiated with
`target := cachedCoins` (the deposit handler, `src/main.ts` lines 128-141)
this says the callback and the persisted `"playerCoin"` entry receive the
cache's coin list `cachedCoins ++ [last of inventory]`, while the actual
remaining inventory is `playerInventory.dropLast`. -/
theorem c3_persists_target (targetInventory sourceInventory : List Coin)
    (h : sourceInventory ≠ []) :
    (updateCache targetInventory sourceInventory).2.2 =
        some ((updateCache targetInventory sourceInventory).1) ∧
    (updateCache targetInventory sourceInventory).1 =
        targetInventory ++ [sourceInventory.getLast h] ∧
    (updateCache targetInventory sourceInventory).2.1 =
        sourceInventory.dropLast := by
  rw [updateCache, List.getLast?_eq_getLast _ h]
  exact ⟨rfl, rfl, rfl⟩

/-- Witness for C3 at a concrete deposit: cache `[⟨"a"⟩]`, inventory
`[⟨"b"⟩]` — the persisted and returned value is the cache list
`[⟨"a"⟩, ⟨"b"⟩]`, not the (now empty) inventory. -/
theorem c3_persists_target_witness :
    (updateCache [(⟨['a']⟩ : Coin)] [⟨['b']⟩]).2.2 =
        some ((updateCache [(⟨['a']⟩ : Coin)] [⟨['b']⟩]).1) ∧
    (updateCache [(⟨['a']⟩ : Coin)] [⟨['b']⟩]).1 = [⟨['a']⟩, ⟨['b']⟩] := by
  have h := c3_persists_target [(⟨['a']⟩ : Coin)] [⟨['b']⟩] (by decide)
  exact ⟨h.1, by simpa using h.2.1⟩

/-! ### The transfer state machine (for the conservation claim)

A game state is the player inventory together with the coin lists of the
currently materialized caches (the values of `CacheManager.caches`, in
insertion order).  One operation is one popup-button click (`src/main.ts`
lines 99-141): opening a popup reads the player inventory from the
persisted `"playerCoin"` entry (lines 102-104); `collect` runs
`updateCache(playerInventory, cachedCoins)` and `deposit` runs
`updateCache(cachedCoins, playerInventory)`; in both directions the
*returned target* is persisted under `"playerCoin"` (line 154) and handed
to `updateInventoryCallback` (lines 122, 137), which installs it as
`GameState.playerInventory` (lines 407-410).  The inventory a later
operation sees is therefore the returned target of the previous one —
after a deposit that is the cache's coin list, not the player's remaining
coins. -/

/-- The coin-bearing state: player inventory plus the coin lists of the
materialized caches. -/
structure GameSt where
  inventory : List Coin
  caches : List (List Coin)
deriving DecidableEq

/-- One user action on a materialized cache, identified by its position in
the cache table. -/
inductive Op where
  | collectAt (i : ℕ)
  | depositAt (i : ℕ)

/-- Effect of one popup-button click on the coin collections, with the
player inventory threaded the way the program threads it between clicks:
the post-operation inventory is the value `updateCache` returns — which it
also persists under `"playerCoin"` and passes to
`updateInventoryCallback` — and that value is the *target* collection in
both directions: the updated inventory on a collect, but the updated
*cache coin list* on a deposit.  An index outside the table corresponds to
no cache and no popup, hence no change. -/
def applyOp (s : GameSt) : Op → GameSt
  | .collectAt i =>
      if h : i < s.caches.length then
        ⟨(updateCache s.inventory (s.caches.get ⟨i, h⟩)).1,
          s.caches.set i (updateCache s.inventory (s.caches.get ⟨i, h⟩)).2.1⟩
      else s
  | .depositAt i =>
      if h : i < s.caches.length then
        ⟨(updateCache (s.caches.get ⟨i, h⟩) s.inventory).1,
          s.caches.set i (updateCache (s.caches.get ⟨i, h⟩) s.inventory).1⟩
      else s

/-- Run a sequence of collect/deposit operations. -/
def runOps (s : GameSt) : List Op → GameSt
  | [] => s
  | op :: ops => runOps (applyOp s op) ops

/-- A list of coins as a multiset (used to state conservation). -/
def listMS (l : List Coin) : Multiset Coin := (l : Multiset Coin)

/-- All coins of a state, as a multiset: the player inventory together with
every materialized cache's coin list. -/
def coinsOf (s : GameSt) : Multiset Coin :=
  listMS s.inventory + (s.caches.map listMS).sum

/-- `|playerInventory|` plus the sum of `|cache.coins|` over all caches. -/
def totalCoins (s : GameSt) : ℕ :=
  s.inventory.length + (s.caches.map List.length).sum

/-- Claim C2 (conservation), refuted on the code: because a deposit
persists and reports the *cache's* coin list as the new player inventory
(the `updateCache` write of the target under `"playerCoin"`), the
deposited cache's coins end up both in that cache and in the inventory the
next operation reads.  Failing run: inventory `[X]`, caches `[A]` and
`[B]`; `deposit` onto cache 0 then `collect` from cache 1 leaves cache 0 =
`[A, X]`, cache 1 = `[]`, inventory = `[A, X, B]` — 5 coins where 3
existed, the coin `X` now in two collections — so the total
`Σ|cache.coins| + |playerInventory|` is *not* unchanged by each operation
and coins *are* duplicated by a transfer, contradicting the claim (which
states the clear intent of the code's own `Move a coin …` comments). -/
theorem c2_conservation_fails :
    totalCoins ⟨[⟨['x']⟩], [[⟨['a']⟩], [⟨['b']⟩]]⟩ = 3 ∧
    runOps ⟨[⟨['x']⟩], [[⟨['a']⟩], [⟨['b']⟩]]⟩
        [Op.depositAt 0, Op.collectAt 1] =
      ⟨[⟨['a']⟩, ⟨['x']⟩, ⟨['b']⟩], [[⟨['a']⟩, ⟨['x']⟩], []]⟩ ∧
    totalCoins (runOps ⟨[⟨['x']⟩], [[⟨['a']⟩], [⟨['b']⟩]]⟩
        [Op.depositAt 0, Op.collectAt 1]) = 5 ∧
    (coinsOf (runOps ⟨[⟨['x']⟩], [[⟨['a']⟩], [⟨['b']⟩]]⟩
        [Op.depositAt 0, Op.collectAt 1])).count ⟨['x']⟩ = 2 := by
  refine ⟨by decide, by decide, by decide, by decide⟩

/-! ### Spawn decision (C8) -/

/-- Counterexample to claim C8: at a seed value exactly equal to the spawn
probability 0.1, the source's check `luck(...) <= 0.1` spawns a cache, while
the claimed strict comparison `seed(cell) < 0.1` would not. -/
theorem c8_counterexample :
    spawnDecision CACHE_SPAWN_PROBABILITY = true ∧
    specSpawnDecision CACHE_SPAWN_PROBABILITY = false := by
  constructor
  · simp [spawnDecision]
  · simp [specSpawnDecision]

/-- Claim C8 as amended: the spawn decision is the *non-strict* comparison —
a cache spawns in a cell exactly when the seed value is `≤ 0.1`; it agrees
with the claimed strict comparison except exactly at the boundary value. -/
theorem c8_amended (s : ℚ) :
    (spawnDecision s = true ↔ s ≤ CACHE_SPAWN_PROBABILITY) ∧
    (spawnDecision s = true ↔
      (specSpawnDecision s = true ∨ s = CACHE_SPAWN_PROBABILITY)) := by
  constructor
  · simp [spawnDecision]
  · simp [spawnDecision, specSpawnDecision, le_iff_lt_or_eq]

/-! ### Location-to-key mapping (C5) -/

/-- Counterexample to claim C5: the locations `lat = 0` and `lat = 5e-5` lie
in the same tile of size `TILE_DEGREES = 1e-4` (the claimed `toCell` agrees
on them), yet `getKey` — which computes `Math.floor(lat * 100000)`, i.e. a
grid of size `1e-5` — maps them to different keys `0:0` and `5:0`. -/
theorem c5_counterexample :
    specToCell 0 0 = specToCell (1 / 20000) 0 ∧
    getKey 0 0 ≠ getKey (1 / 20000) 0 := by
  have ht : TILE_DEGREES = 1 / 10000 := rfl
  have e2 : (1 / 20000 : ℚ) / TILE_DEGREES = 1 / 2 := by rw [ht]; norm_num
  have f2 : ⌊(1 / 2 : ℚ)⌋ = 0 := by
    apply Int.floor_eq_iff.mpr
    constructor <;> norm_num
  have f5 : ⌊(1 / 20000 : ℚ) * 100000⌋ = 5 := by
    have e5 : (1 / 20000 : ℚ) * 100000 = 5 := by norm_num
    rw [e5]
    apply Int.floor_eq_iff.mpr
    constructor <;> norm_num
  have fz : ⌊(0 : ℚ) * 100000⌋ = 0 := by norm_num
  constructor
  · unfold specToCell
    rw [e2, f2]
    norm_num
  · unfold getKey
    rw [fz, f5]
    decide

/-- Claim C5 as amended: `getKey` computes `i = floor(lat * 100000)` and
`j = floor(lng * 100000)` — an axis-aligned grid of tile size `1e-5`, not
`TILE_DEGREES = 1e-4` — so any two locations inside the same `1e-5`-tile
(`[k/100000, (k+1)/100000) × [m/100000, (m+1)/100000)`) map to the same
cell key `(k, m)`. -/
theorem c5_amended (lat lng : ℚ) (k m : ℤ)
    (h1 : (k : ℚ) / 100000 ≤ lat) (h2 : lat < ((k : ℚ) + 1) / 100000)
    (h3 : (m : ℚ) / 100000 ≤ lng) (h4 : lng < ((m : ℚ) + 1) / 100000) :
    getKey lat lng = (k, m) := by
  have hk : ⌊lat * 100000⌋ = k := by
    apply Int.floor_eq_iff.mpr
    refine ⟨(div_le_iff₀ (by norm_num : (0:ℚ) < 100000)).mp h1, ?_⟩
    exact (lt_div_iff₀ (by norm_num : (0:ℚ) < 100000)).mp h2
  have hm : ⌊lng * 100000⌋ = m := by
    apply Int.floor_eq_iff.mpr
    refine ⟨(div_le_iff₀ (by norm_num : (0:ℚ) < 100000)).mp h3, ?_⟩
    exact (lt_div_iff₀ (by norm_num : (0:ℚ) < 100000)).mp h4
  unfold getKey
  rw [hk, hm]

/-- Witness for C5 (amended) at a concrete input: `lat = 5.5e-5` and
`lng = 0` lie in the `1e-5`-tile of `(5, 0)` and get key `(5, 0)`. -/
theorem c5_amended_witness :
    ((5 : ℚ) / 100000 ≤ 11 / 200000 ∧
      (11 / 200000 : ℚ) < ((5 : ℚ) + 1) / 100000) ∧
    getKey (11 / 200000) 0 = (5, 0) := by
  refine ⟨⟨by norm_num, by norm_num⟩, ?_⟩
  exact c5_amended (11 / 200000) 0 5 0 (by norm_num) (by norm_num)
    (by norm_num) (by norm_num)

/-! ### Neighborhood enumeration (C9) -/

/-- The row (or column) offsets visited by the neighborhood loops: the
first unnamed revision iterates `i` (resp. `j`) over the half-open integer
range `[-NEIGHBORHOOD_SIZE, NEIGHBORHOOD_SIZE)` around the player's cell
(lines 133-140); `populateNeighborhood` in `src/main.ts` (lines 66-88) steps
the coordinate from `lat - 8·TILE_DEGREES` up to (exclusive)
`lat + 8·TILE_DEGREES` in steps of `TILE_DEGREES`, visiting the same 16
offsets in exact arithmetic.  Generalized to center `c` and radius `r`. -/
def offsets (c : ℤ) (r : ℕ) : List ℤ :=
  (List.range (2 * r)).map (fun (d : ℕ) => c - (r : ℤ) + (d : ℤ))

/-- The enumerated neighborhood: all cells `(i + di, j + dj)` for
`di, dj ∈ [-r, r)`, in the nested-loop order of the source (outer latitude,
inner longitude). -/
def visibleCells (i j : ℤ) (r : ℕ) : List (ℤ × ℤ) :=
  (offsets i r) ×ˢ (offsets j r)

theorem mem_offsets {c z : ℤ} {r : ℕ} :
    z ∈ offsets c r ↔ c - r ≤ z ∧ z < c + r := by
  simp only [offsets, List.mem_map, List.mem_range]
  constructor
  · rintro ⟨d, hd, rfl⟩
    omega
  · intro h
    refine ⟨(z - (c - r)).toNat, ?_, ?_⟩ <;> omega

theorem nodup_offsets (c : ℤ) (r : ℕ) : (offsets c r).Nodup := by
  refine List.Nodup.map ?_ (List.nodup_range _)
  intro a b hab
  have h : c - (r : ℤ) + (a : ℤ) = c - (r : ℤ) + (b : ℤ) := hab
  omega

/-- Claim C9: the neighborhood enumeration yields exactly `(2r)²` distinct
cells — precisely the cells `(i + di, j + dj)` with `di, dj` in the
half-open range `[-r, r)` — and (for `r ≥ 1`) the cell of the given location
is among them. -/
theorem c9_visible_cells (i j : ℤ) (r : ℕ) :
    (visibleCells i j r).length = (2 * r) ^ 2 ∧
    (visibleCells i j r).Nodup ∧
    (∀ p : ℤ × ℤ, p ∈ visibleCells i j r ↔
      (i - r ≤ p.1 ∧ p.1 < i + r ∧ j - r ≤ p.2 ∧ p.2 < j + r)) ∧
    (1 ≤ r → (i, j) ∈ visibleCells i j r) := by
  refine ⟨?_, ?_, ?_, ?_⟩
  · rw [visibleCells, List.length_product]
    simp only [offsets, List.length_map, List.length_range]
    ring
  · exact (nodup_offsets i r).product (nodup_offsets j r)
  · rintro ⟨a, b⟩
    rw [visibleCells, List.mem_product, mem_offsets, mem_offsets]
    tauto
  · intro hr
    exact List.mem_product.mpr
      ⟨mem_offsets.mpr (by omega), mem_offsets.mpr (by omega)⟩

/-- Witness for C9 at the source's radius `NEIGHBORHOOD_SIZE = 8`: a 16×16
block of 256 cells containing the center cell. -/
theorem c9_visible_cells_witness :
    (visibleCells 0 0 8).length = 256 ∧ (0, 0) ∈ visibleCells 0 0 8 := by
  have h := c9_visible_cells 0 0 8
  refine ⟨?_, h.2.2.2 (by norm_num)⟩
  rw [h.1]
  norm_num

/-! ### Memento serialization (`Cache.toMomento` / `Cache.fromMomento`)

`toMomento` is `JSON.stringify(\x7b coins: this.coins \x7d)` (`src/main.ts`
line 38) for a coin array of `\x7b serial: string \x7d` records: the exact
output is `\x7b"coins":[\x7b"serial":"…"\x7d,…]\x7d` with JS string escaping
(`"` and `\` get a backslash; the control characters U+0008/9/A/C/D become
`\b \t \n \f \r`; remaining characters below U+0020 become `\u00XX`).
`fromMomento` is `JSON.parse(momento)` followed by reading `.coins`
(lines 42-45); `JSON.parse` of a malformed string throws a `SyntaxError`,
which nothing in the source catches — parsing failure is modelled as `none`.
Strings are lists of characters here. -/

/-- The quote character `"`. -/
def qMark : Char := Char.ofNat 34

/-- The backslash character. -/
def bSlash : Char := Char.ofNat 92

/-- The opening brace character. -/
def jLBrace : Char := Char.ofNat 123

/-- The closing brace character. -/
def jRBrace : Char := Char.ofNat 125

/-- Lowercase hexadecimal digit for `n < 16`, as emitted by `\u00XX`
escapes. -/
def hexDigitChar (n : ℕ) : Char :=
  if n < 10 then Char.ofNat (48 + n) else Char.ofNat (87 + n)

/-- JS string escaping of one character, as performed by `JSON.stringify`. -/
def escapeChar (c : Char) : List Char :=
  if c = qMark then [bSlash, qMark]
  else if c = bSlash then [bSlash, bSlash]
  else if c = Char.ofNat 8 then [bSlash, 'b']
  else if c = Char.ofNat 9 then [bSlash, 't']
  else if c = Char.ofNat 10 then [bSlash, 'n']
  else if c = Char.ofNat 12 then [bSlash, 'f']
  else if c = Char.ofNat 13 then [bSlash, 'r']
  else if c.toNat < 32 then
    [bSlash, 'u', '0', '0', hexDigitChar (c.toNat / 16),
      hexDigitChar (c.toNat % 16)]
  else [c]

/-- JS string escaping of a whole string. -/
def escapeString (s : List Char) : List Char := s.flatMap escapeChar

/-- The literal `\x7b"serial":"` opening one serialized coin record. -/
def coinHeader : List Char :=
  [jLBrace, qMark, 's', 'e', 'r', 'i', 'a', 'l', qMark, ':', qMark]

/-- `JSON.stringify(\x7b serial: c.serial \x7d)`. -/
def serializeCoin (c : Coin) : List Char :=
  coinHeader ++ escapeString c.serial ++ [qMark, jRBrace]

/-- `,`-prefixed concatenation of the non-first array elements. -/
def commaSep : List (List Char) → List Char
  | [] => []
  | x :: xs => ',' :: (x ++ commaSep xs)

/-- Comma-separated concatenation, as `JSON.stringify` renders an array
body. -/
def sepByComma : List (List Char) → List Char
  | [] => []
  | x :: xs => x ++ commaSep xs

/-- The literal `\x7b"coins":[` opening the serialized cache state. -/
def momentoHeader : List Char :=
  [jLBrace, qMark, 'c', 'o', 'i', 'n', 's', qMark, ':', '[']

/-- `Cache.toMomento` (`src/main.ts` lines 38-40):
`JSON.stringify(\x7b coins \x7d)`. -/
def toMomento (coins : List Coin) : List Char :=
  momentoHeader ++ sepByComma (coins.map serializeCoin) ++ [']', jRBrace]

/-- Parse one hexadecimal digit (as `JSON.parse` does inside `\uXXXX`). -/
def parseHexDigit (c : Char) : Option ℕ :=
  if 48 ≤ c.toNat ∧ c.toNat ≤ 57 then some (c.toNat - 48)
  else if 97 ≤ c.toNat ∧ c.toNat ≤ 102 then some (c.toNat - 87)
  else if 65 ≤ c.toNat ∧ c.toNat ≤ 70 then some (c.toNat - 55)
  else none

/-- Decode the JSON escape introduced by a backslash: the escape letter `e`
followed by the remaining input.  Returns the decoded character and the rest
of the input, or `none` for an invalid escape (a `SyntaxError` in JS). -/
def parseEscape (e : Char) (rest : List Char) : Option (Char × List Char) :=
  if e = qMark then some (qMark, rest)
  else if e = bSlash then some (bSlash, rest)
  else if e = '/' then some ('/', rest)
  else if e = 'b' then some (Char.ofNat 8, rest)
  else if e = 't' then some (Char.ofNat 9, rest)
  else if e = 'n' then some (Char.ofNat 10, rest)
  else if e = 'f' then some (Char.ofNat 12, rest)
  else if e = 'r' then some (Char.ofNat 13, rest)
  else if e = 'u' then
    match rest with
    | h1 :: h2 :: h3 :: h4 :: rest1 =>
        match parseHexDigit h1, parseHexDigit h2, parseHexDigit h3,
            parseHexDigit h4 with
        | some a, some b, some c, some d =>
            if ((a * 16 + b) * 16 + c) * 16 + d < 55296 then
              some (Char.ofNat (((a * 16 + b) * 16 + c) * 16 + d), rest1)
            else none
        | _, _, _, _ => none
    | _ => none
  else none

/-- Parse a JSON string body up to and including the closing quote,
returning the decoded string and the remaining input.  The fuel argument
bounds the number of decoded characters (one unit per output character);
callers pass `input.length + 1`, which can never be exhausted since every
decoded character consumes at least one input character. -/
def parseStringBody : ℕ → List Char → Option (List Char × List Char)
  | 0, _ => none
  | _ + 1, [] => none
  | fuel + 1, c :: rest =>
      if c = qMark then some ([], rest)
      else if c = bSlash then
        match rest with
        | [] => none
        | e :: rest1 =>
            match parseEscape e rest1 with
            | none => none
            | some (d, rest2) =>
                match parseStringBody fuel rest2 with
                | none => none
                | some (s, t) => some (d :: s, t)
      else if c.toNat < 32 then none
      else
        match parseStringBody fuel rest with
        | none => none
        | some (s, t) => some (c :: s, t)

/-- Match an expected literal character sequence, returning the remaining
input. -/
def expectChars : List Char → List Char → Option (List Char)
  | [], l => some l
  | _ :: _, [] => none
  | p :: ps, c :: cs => if c = p then expectChars ps cs else none

/-- Parse one serialized coin record `\x7b"serial":"…"\x7d`. -/
def parseCoin (l : List Char) : Option (Coin × List Char) :=
  match expectChars coinHeader l with
  | none => none
  | some l1 =>
      match parseStringBody (l1.length + 1) l1 with
      | none => none
      | some (s, l2) =>
          match l2 with
          | [] => none
          | d :: l3 => if d = jRBrace then some (⟨s⟩, l3) else none

/-- Parse a non-empty comma-separated coin sequence followed by `]`.  The
fuel bounds the number of coins; callers pass `input.length + 1`. -/
def parseCoinSeq : ℕ → List Char → Option (List Coin × List Char)
  | 0, _ => none
  | fuel + 1, l =>
      match parseCoin l with
      | none => none
      | some (c, l1) =>
          match l1 with
          | [] => none
          | d :: l2 =>
              if d = ']' then some ([c], l2)
              else if d = ',' then
                match parseCoinSeq fuel l2 with
                | none => none
                | some (cs, rest) => some (c :: cs, rest)
              else none

/-- Parse a (possibly empty) JSON coin array body after the opening `[`. -/
def parseCoinList (l : List Char) : Option (List Coin × List Char) :=
  match l with
  | [] => none
  | c :: rest =>
      if c = ']' then some ([], rest)
      else parseCoinSeq ((c :: rest).length + 1) (c :: rest)

/-- `JSON.parse` restricted to the serialized-cache-state shape, followed by
reading `.coins`: accepts exactly the strings `Cache.toMomento` produces
(no whitespace, a single `coins` field of coin records with string `serial`
fields) and rejects everything else — in JS any other string either raises
a `SyntaxError` in `JSON.parse` or yields an object whose `.coins` is not a
coin array, poisoning every later use; both are modelled as `none`. -/
def parseMomento (l : List Char) : Option (List Coin) :=
  match expectChars momentoHeader l with
  | none => none
  | some l1 =>
      match parseCoinList l1 with
      | none => none
      | some (coins, l2) => if l2 = [jRBrace] then some coins else none

/-- `Cache.fromMomento` (`src/main.ts` lines 42-45): parse and take the coin
list; `none` models the uncaught `SyntaxError` / poisoned-state outcome on
malformed input. -/
def fromMomento (l : List Char) : Option (List Coin) := parseMomento l

theorem parseHexDigit_hexDigitChar (n : ℕ) (h : n < 16) :
    parseHexDigit (hexDigitChar n) = some n := by
  interval_cases n <;> decide

theorem escapeChar_length_pos (c : Char) : 0 < (escapeChar c).length := by
  unfold escapeChar
  iterate 8 (split; · simp)
  simp

theorem escapeString_length (s : List Char) :
    s.length ≤ (escapeString s).length := by
  induction s with
  | nil => simp [escapeString]
  | cons c s ih =>
      have h := escapeChar_length_pos c
      simp only [escapeString, List.flatMap_cons, List.length_append,
        List.length_cons]
      simp only [escapeString] at ih
      omega

theorem parseStringBody_escapeChar (c : Char) (f : ℕ) (tail : List Char) :
    parseStringBody (f + 1) (escapeChar c ++ tail) =
      match parseStringBody f tail with
      | none => none
      | some (s, t) => some (c :: s, t) := by
  by_cases h1 : c = qMark
  · subst h1; simp +decide [escapeChar, parseStringBody, parseEscape]
  by_cases h2 : c = bSlash
  · subst h2; simp +decide [escapeChar, parseStringBody, parseEscape]
  by_cases h3 : c = Char.ofNat 8
  · subst h3; simp +decide [escapeChar, parseStringBody, parseEscape]
  by_cases h4 : c = Char.ofNat 9
  · subst h4; simp +decide [escapeChar, parseStringBody, parseEscape]
  by_cases h5 : c = Char.ofNat 10
  · subst h5; simp +decide [escapeChar, parseStringBody, parseEscape]
  by_cases h6 : c = Char.ofNat 12
  · subst h6; simp +decide [escapeChar, parseStringBody, parseEscape]
  by_cases h7 : c = Char.ofNat 13
  · subst h7; simp +decide [escapeChar, parseStringBody, parseEscape]
  by_cases hlt : c.toNat < 32
  · have hesc : escapeChar c = [bSlash, 'u', '0', '0',
        hexDigitChar (c.toNat / 16), hexDigitChar (c.toNat % 16)] := by
      unfold escapeChar
      rw [if_neg h1, if_neg h2, if_neg h3, if_neg h4, if_neg h5, if_neg h6,
        if_neg h7, if_pos hlt]
    have hpe : parseEscape 'u' ('0' :: '0' :: hexDigitChar (c.toNat / 16) ::
        hexDigitChar (c.toNat % 16) :: tail) = some (c, tail) := by
      have ha : parseHexDigit '0' = some 0 := by decide
      have hb : parseHexDigit (hexDigitChar (c.toNat / 16)) =
          some (c.toNat / 16) := parseHexDigit_hexDigitChar _ (by omega)
      have hcd : parseHexDigit (hexDigitChar (c.toNat % 16)) =
          some (c.toNat % 16) := parseHexDigit_hexDigitChar _ (by omega)
      unfold parseEscape
      rw [if_neg (by decide), if_neg (by decide), if_neg (by decide),
        if_neg (by decide), if_neg (by decide), if_neg (by decide),
        if_neg (by decide), if_neg (by decide), if_pos rfl]
      simp only [ha, hb, hcd]
      have hval : ((0 * 16 + 0) * 16 + c.toNat / 16) * 16 + c.toNat % 16 =
          c.toNat := by omega
      rw [hval, if_pos (by omega : c.toNat < 55296), Char.ofNat_toNat]
    rw [hesc]
    show parseStringBody (f + 1) (bSlash :: 'u' :: '0' :: '0' ::
        hexDigitChar (c.toNat / 16) :: hexDigitChar (c.toNat % 16) :: tail) = _
    simp only [parseStringBody]
    rw [if_neg (by decide : ¬(bSlash = qMark))]
    simp only [if_true, hpe]
  · have hesc : escapeChar c = [c] := by
      unfold escapeChar
      rw [if_neg h1, if_neg h2, if_neg h3, if_neg h4, if_neg h5, if_neg h6,
        if_neg h7, if_neg hlt]
    rw [hesc]
    show parseStringBody (f + 1) (c :: tail) = _
    simp only [parseStringBody]
    rw [if_neg h1, if_neg h2, if_neg hlt]

theorem parseStringBody_escapeString (s : List Char) :
    ∀ (fuel : ℕ), s.length < fuel → ∀ (rest : List Char),
      parseStringBody fuel (escapeString s ++ qMark :: rest) =
        some (s, rest) := by
  induction s with
  | nil =>
      intro fuel hf rest
      obtain ⟨f, rfl⟩ : ∃ f, fuel = f + 1 := ⟨fuel - 1, by omega⟩
      show parseStringBody (f + 1) (qMark :: rest) = some ([], rest)
      simp [parseStringBody]
  | cons c s ih =>
      intro fuel hf rest
      obtain ⟨f, rfl⟩ : ∃ f, fuel = f + 1 := ⟨fuel - 1, by omega⟩
      have he : escapeString (c :: s) ++ qMark :: rest =
          escapeChar c ++ (escapeString s ++ qMark :: rest) := by
        simp [escapeString, List.append_assoc]
      rw [he, parseStringBody_escapeChar c f _]
      rw [ih f (by simp at hf; omega) rest]

theorem expectChars_append (p l : List Char) :
    expectChars p (p ++ l) = some l := by
  induction p with
  | nil => rfl
  | cons c cs ih => simp [expectChars, ih]

theorem parseCoin_serializeCoin (c : Coin) (rest : List Char) :
    parseCoin (serializeCoin c ++ rest) = some (c, rest) := by
  have hsh : serializeCoin c ++ rest =
      coinHeader ++ (escapeString c.serial ++ qMark :: jRBrace :: rest) := by
    simp [serializeCoin, List.append_assoc]
  have hlen : c.serial.length <
      (escapeString c.serial ++ qMark :: jRBrace :: rest).length + 1 := by
    have h := escapeString_length c.serial
    simp only [List.length_append, List.length_cons]
    omega
  unfold parseCoin
  rw [hsh]
  simp only [expectChars_append]
  rw [parseStringBody_escapeString c.serial _ hlen (jRBrace :: rest)]
  simp

theorem serializeCoin_length_pos (c : Coin) : 0 < (serializeCoin c).length := by
  simp [serializeCoin, coinHeader]

theorem sep_length_ge (coins : List Coin) :
    coins.length ≤ (sepByComma (coins.map serializeCoin)).length := by
  induction coins with
  | nil => simp [sepByComma]
  | cons c cs ih =>
      cases cs with
      | nil =>
          simpa [sepByComma, commaSep] using serializeCoin_length_pos c
      | cons c' cs' =>
          have he : sepByComma ((c :: c' :: cs').map serializeCoin) =
              serializeCoin c ++
                (',' :: sepByComma ((c' :: cs').map serializeCoin)) := rfl
          rw [he]
          have h1 := serializeCoin_length_pos c
          simp only [List.length_append, List.length_cons] at *
          omega

theorem parseCoinSeq_serialize (coins : List Coin) :
    ∀ (fuel : ℕ) (rest : List Char), coins ≠ [] → coins.length ≤ fuel →
      parseCoinSeq fuel
          (sepByComma (coins.map serializeCoin) ++ ']' :: rest) =
        some (coins, rest) := by
  induction coins with
  | nil => intro fuel rest h; exact absurd rfl h
  | cons c cs ih =>
      intro fuel rest _ hlen
      obtain ⟨f, rfl⟩ : ∃ f, fuel = f + 1 :=
        ⟨fuel - 1, by simp at hlen; omega⟩
      cases cs with
      | nil =>
          have he : sepByComma ([c].map serializeCoin) ++ ']' :: rest =
              serializeCoin c ++ (']' :: rest) := by
            simp [sepByComma, commaSep]
          rw [he]
          simp +decide [parseCoinSeq, parseCoin_serializeCoin]
      | cons c' cs' =>
          have he : sepByComma ((c :: c' :: cs').map serializeCoin) ++
                ']' :: rest =
              serializeCoin c ++ (',' ::
                (sepByComma ((c' :: cs').map serializeCoin) ++
                  ']' :: rest)) := by
            show (serializeCoin c ++
                (',' :: sepByComma ((c' :: cs').map serializeCoin))) ++
                ']' :: rest = _
            simp [List.append_assoc]
          rw [he]
          simp +decide only [parseCoinSeq, parseCoin_serializeCoin]
          rw [ih f rest (by simp) (by simp at hlen ⊢; omega)]
          simp

theorem parseCoinList_cons_ne (x : Char) (xs : List Char) (h : x ≠ ']') :
    parseCoinList (x :: xs) =
      parseCoinSeq ((x :: xs).length + 1) (x :: xs) := by
  simp [parseCoinList, h]

/-- Claim C10: the memento round-trip — restoring from a snapshot of any
cache state recovers exactly the original coin list:
`fromMomento (toMomento coins) = some coins` for every finite ordered coin
list (arbitrary serial strings, including ones needing JSON escaping). -/
theorem c10_roundtrip (coins : List Coin) :
    fromMomento (toMomento coins) = some coins := by
  unfold fromMomento parseMomento toMomento
  rw [List.append_assoc]
  simp only [expectChars_append]
  cases coins with
  | nil => simp +decide [sepByComma, parseCoinList]
  | cons c cs =>
      have hser : serializeCoin c = jLBrace ::
          (coinHeader.tail ++ escapeString c.serial ++ [qMark, jRBrace]) := rfl
      have ht : sepByComma ((c :: cs).map serializeCoin) ++
            ([']', jRBrace] : List Char) =
          jLBrace :: ((coinHeader.tail ++ escapeString c.serial ++
            [qMark, jRBrace]) ++ commaSep (cs.map serializeCoin) ++
            [']', jRBrace]) := by
        show (serializeCoin c ++ commaSep (cs.map serializeCoin)) ++
            ([']', jRBrace] : List Char) = _
        rw [hser]
        simp [List.append_assoc]
      rw [ht, parseCoinList_cons_ne jLBrace _ (by decide), ← ht]
      have hfuel : (c :: cs).length ≤
          (sepByComma ((c :: cs).map serializeCoin) ++
            ([']', jRBrace] : List Char)).length + 1 := by
        have h := sep_length_ge (c :: cs)
        simp only [List.length_append, List.length_cons] at *
        omega
      rw [parseCoinSeq_serialize (c :: cs) _ [jRBrace] (by simp) hfuel]
      simp

/-! ### Persistence and lazy materialization (`saveCache` / `restoreCache` /
`getCell`) -/

/-- `localStorage.setItem`: newest binding shadows older ones (`lookup`
returns the first match). -/
def setStore (store : List (List Char × List Char)) (key val : List Char) :
    List (List Char × List Char) :=
  (key, val) :: store

/-- `CacheManager.saveCache` (`src/main.ts` lines 176-178):
`localStorage.setItem(key, cache.toMomento())`. -/
def saveCache (store : List (List Char × List Char)) (key : List Char)
    (coins : List Coin) : List (List Char × List Char) :=
  setStore store key (toMomento coins)

/-- `this.caches.set(key, coins)`: newest binding shadows older ones. -/
def setCacheEntry (caches : List (List Char × List Coin)) (key : List Char)
    (coins : List Coin) : List (List Char × List Coin) :=
  (key, coins) :: caches

/-- `CacheManager.restoreCache` (`src/main.ts` lines 180-187): read the
persisted momento for `key`; if absent do nothing; otherwise run
`fromMomento` and install the result into the table.  There is no
`try`/`catch`: when `fromMomento` fails (malformed persisted state) the
exception propagates, modelled by the `none` result. -/
def restoreCache (store : List (List Char × List Char)) (key : List Char)
    (caches : List (List Char × List Coin)) :
    Option (List (List Char × List Coin)) :=
  match store.lookup key with
  | none => some caches
  | some m =>
      match fromMomento m with
      | none => none
      | some coins => some (setCacheEntry caches key coins)

/-- Counterexample to claim C6: with the single persisted entry
`"k" ↦ "x"` (not valid serialized cache state — `JSON.parse("x")` throws a
`SyntaxError`), `restoreCache` propagates the error (`none`) instead of
behaving like the no-persisted-state case, which leaves the table unchanged
(`some []`) so that `getCell` would fall back to fresh materialization. -/
theorem c6_counterexample :
    restoreCache [(['k'], ['x'])] ['k'] [] = none ∧
    restoreCache [] ['k'] [] = some [] := by
  constructor <;> rfl

/-- Claim C6 as amended: only an *absent* persisted entry is treated as "no
persisted state" (table left unchanged, so the cache falls back to its
freshly materialized contents); a *present but malformed* entry makes
`restoreCache` raise — the `JSON.parse` error propagates uncaught. -/
theorem c6_amended (store : List (List Char × List Char)) (key : List Char)
    (caches : List (List Char × List Coin)) :
    (store.lookup key = none → restoreCache store key caches = some caches) ∧
    (∀ m, store.lookup key = some m → fromMomento m = none →
        restoreCache store key caches = none) := by
  constructor
  · intro h
    simp [restoreCache, h]
  · intro m hm hp
    simp [restoreCache, hm, hp]

/-- Witness for C6 (amended) at concrete inputs: an empty store restores to
the unchanged table, and the malformed entry `"k" ↦ "x"` makes restore
fail. -/
theorem c6_amended_witness :
    restoreCache [] ['k'] [] = some [] ∧
    restoreCache [(['k'], ['x'])] ['k'] [] = none := by
  refine ⟨(c6_amended [] ['k'] []).1 rfl,
    (c6_amended [(['k'], ['x'])] ['k'] []).2 ['x'] rfl ?_⟩
  rfl

/-- The serial string `` `${key}#${i}` `` generated by `getCell`
(`src/main.ts` line 167). -/
def mkSerial (key : List Char) (i : ℕ) : List Char :=
  key ++ '#' :: Nat.toDigits 10 i

/-- `CacheManager.getCell` (`src/main.ts` lines 160-174): if the key is in
the table, return the existing cache unchanged; otherwise generate
`Math.floor(luck([lat, lon].toString()) * 100)` coins with serials
`` `${key}#${i}` `` for `i = 0, 1, …` and insert the new cache.  `s` is the
seed value `luck([lat, lon].toString())` and `key` is `getKey(lat, lon)`. -/
def getCell (caches : List (List Char × List Coin)) (key : List Char)
    (s : ℚ) : List Coin × List (List Char × List Coin) :=
  match caches.lookup key with
  | some cache => (cache, caches)
  | none =>
      ((List.range (Int.toNat ⌊s * 100⌋)).map
          (fun (i : ℕ) => Coin.mk (mkSerial key i)),
        setCacheEntry caches key
          ((List.range (Int.toNat ⌊s * 100⌋)).map
            (fun (i : ℕ) => Coin.mk (mkSerial key i))))

/-- Modelled from the spec: the claimed coin-count formula
`floor(seed(cell, "numCoins") * maxCoinsPerCache + 1)` with
`maxCoinsPerCache = 3`, for comparison with the source's count. -/
def specNumCoins (s : ℚ) : ℤ := ⌊s * 3 + 1⌋

theorem floor_half_hundred : ⌊(1 / 2 : ℚ) * 100⌋ = 50 := by
  have h : (1 / 2 : ℚ) * 100 = ((50 : ℤ) : ℚ) := by norm_num
  rw [h, Int.floor_intCast]

/-- Counterexample to claim C4: at seed value `0.5` the source's `getCell`
generates `floor(0.5 * 100) = 50` coins for a fresh cell — not the claimed
`floor(0.5 * 3 + 1) = 2` coins (the source has no `maxCoinsPerCache = 3`
and no `+ 1`; its multiplier is `100`, allowing `0` to `99` coins). -/
theorem c4_counterexample :
    (getCell [] ['0', ':', '0'] (1 / 2)).1.length = 50 ∧
    specNumCoins (1 / 2) = 2 ∧ (50 : ℕ) ≠ 2 := by
  refine ⟨?_, ?_, by decide⟩
  · show ((List.range (Int.toNat ⌊(1 / 2 : ℚ) * 100⌋)).map
        (fun (i : ℕ) => Coin.mk (mkSerial ['0', ':', '0'] i))).length = 50
    rw [List.length_map, List.length_range, floor_half_hundred]
    rfl
  · show ⌊(1 / 2 : ℚ) * 3 + 1⌋ = 2
    have h : (1 / 2 : ℚ) * 3 + 1 = 5 / 2 := by norm_num
    rw [h]
    apply Int.floor_eq_iff.mpr
    constructor <;> norm_num

/-- Claim C4 as amended: for every cell not already present in the cache
table, `getCell` generates a cache with coin count `floor(seed * 100)`
(so between `0` and `99` coins; the seed key is the same `[lat, lon]` string
used for the spawn check, with no `"numCoins"` discriminator), whose coins
carry the serial strings `` `${key}#${i}` `` for `i = 0 .. count-1`
(embedding the origin cell's key), and inserts it into the table; at seed
value `0.5` it produces exactly 50 coins. -/
theorem c4_amended (caches : List (List Char × List Coin)) (key : List Char)
    (s : ℚ) (h : caches.lookup key = none) :
    (getCell caches key s).1.length = Int.toNat ⌊s * 100⌋ ∧
    (∀ (i : ℕ) (hi : i < (getCell caches key s).1.length),
        ((getCell caches key s).1.get ⟨i, hi⟩).serial = mkSerial key i) ∧
    (getCell caches key s).2 =
      setCacheEntry caches key (getCell caches key s).1 := by
  have hg : getCell caches key s =
      ((List.range (Int.toNat ⌊s * 100⌋)).map
          (fun (i : ℕ) => Coin.mk (mkSerial key i)),
        setCacheEntry caches key
          ((List.range (Int.toNat ⌊s * 100⌋)).map
            (fun (i : ℕ) => Coin.mk (mkSerial key i)))) := by
    unfold getCell
    rw [h]
  rw [hg]
  refine ⟨by simp, ?_, rfl⟩
  intro i hi
  simp

/-- Witness for C4 (amended) at a concrete input: a fresh table and seed
value `0.5` produce a cache of exactly 50 coins. -/
theorem c4_amended_witness :
    ([] : List (List Char × List Coin)).lookup ['0', ':', '0'] = none ∧
    (getCell [] ['0', ':', '0'] (1 / 2)).1.length = 50 := by
  have h0 : ([] : List (List Char × List Coin)).lookup ['0', ':', '0'] =
      none := rfl
  refine ⟨h0, ?_⟩
  rw [(c4_amended [] ['0', ':', '0'] (1 / 2) h0).1, floor_half_hundred]
  rfl

end GeoCoin

namespace Part001

/-! ### The second unnamed revision (`src/unnamed/part_001`)

This revision has the whole-inventory `deposit` (lines 201-209) and the
per-coin `collect` (lines 195-199); its coins carry a cell, a numeric
serial, and an origin-cache string (lines 27-37). -/

/-- `interface Cell \x7b i, j \x7d` (lines 27-30). -/
structure Cell where
  i : ℤ
  j : ℤ
deriving DecidableEq

/-- `interface Coin \x7b cell, serial, originCache \x7d` (lines 33-37). -/
structure Coin where
  cell : Cell
  serial : ℕ
  originCache : List Char
deriving DecidableEq

/-- `Cache.addCoin` (lines 82-84): push onto the coin list. -/
def addCoin (coins : List Coin) (c : Coin) : List Coin := coins ++ [c]

/-- `Cache.removeCoin` (lines 86-89): `indexOf` + `splice` — remove the
first occurrence if present, otherwise leave the list unchanged. -/
def removeCoin (coins : List Coin) (c : Coin) : List Coin := coins.erase c

/-- `collect(coin, cache)` (lines 195-199): push the clicked coin onto the
player inventory and remove it from the cache.  Returns
`(playerInventory, cache.coins)` after the call. -/
def collect (c : Coin) (cacheCoins playerInventory : List Coin) :
    List Coin × List Coin :=
  (playerInventory ++ [c], removeCoin cacheCoins c)

/-- The `while (playerInventory.length > 0)` loop of `deposit`
(lines 202-206): pop the last inventory coin and `addCoin` it, until the
inventory is empty.  The fuel starts at `playerInventory.length`, which is
exactly the number of iterations the loop performs. -/
def depositLoop : ℕ → List Coin → List Coin → List Coin × List Coin
  | 0, cacheCoins, inv => (cacheCoins, inv)
  | fuel + 1, cacheCoins, inv =>
      match inv.getLast? with
      | none => (cacheCoins, inv)
      | some c => depositLoop fuel (addCoin cacheCoins c) inv.dropLast

/-- `deposit(cache)` (lines 201-209): transfer the whole player inventory
into the cache.  Returns `(cache.coins, playerInventory)` after the call. -/
def deposit (cacheCoins playerInventory : List Coin) :
    List Coin × List Coin :=
  depositLoop playerInventory.length cacheCoins playerInventory

theorem depositLoop_spec (inv : List Coin) :
    ∀ (fuel : ℕ) (cacheCoins : List Coin), inv.length ≤ fuel →
      depositLoop fuel cacheCoins inv = (cacheCoins ++ inv.reverse, []) := by
  induction inv using List.reverseRecOn with
  | nil =>
      intro fuel cacheCoins _
      cases fuel with
      | zero => simp [depositLoop]
      | succ f => simp [depositLoop]
  | append_singleton xs x ih =>
      intro fuel cacheCoins hf
      obtain ⟨f, rfl⟩ : ∃ f, fuel = f + 1 :=
        ⟨fuel - 1, by simp at hf; omega⟩
      rw [depositLoop, List.getLast?_concat]
      simp only [List.dropLast_concat]
      rw [ih f (addCoin cacheCoins x) (by simp at hf ⊢; omega)]
      simp [addCoin]

/-- Counterexample to claim C1: depositing the inventory `[X, Y]` onto the
cache `[A]` yields the cache `[A, Y, X]` — the loop pops from the *end* of
the inventory, appending in reverse — not the claimed append-order
`[A, X, Y]` (coins `A`, `X`, `Y` are the distinct serials `2`, `0`, `1` at
origin cell `(0,0)`). -/
theorem c1_counterexample :
    deposit [(⟨⟨0, 0⟩, 2, []⟩ : Coin)] [⟨⟨0, 0⟩, 0, []⟩, ⟨⟨0, 0⟩, 1, []⟩] =
      ([⟨⟨0, 0⟩, 2, []⟩, ⟨⟨0, 0⟩, 1, []⟩, ⟨⟨0, 0⟩, 0, []⟩], []) ∧
    deposit [(⟨⟨0, 0⟩, 2, []⟩ : Coin)] [⟨⟨0, 0⟩, 0, []⟩, ⟨⟨0, 0⟩, 1, []⟩] ≠
      ([⟨⟨0, 0⟩, 2, []⟩, ⟨⟨0, 0⟩, 0, []⟩, ⟨⟨0, 0⟩, 1, []⟩], []) := by
  constructor <;> decide

/-- Claim C1 as amended: in the whole-inventory revision a single `deposit`
call transfers the entire player inventory into the target cache
atomically, appending the popped coins in *reverse* inventory order — cache
`A` with inventory `inv` becomes `A ++ reverse inv` with an empty inventory
(so `[X, Y]` onto `[A]` yields `[A, Y, X]`) — while a single `collect` call
transfers exactly one coin (the clicked coin, when it is in the cache) per
invocation. -/
theorem c1_amended (cacheCoins playerInventory : List Coin) :
    deposit cacheCoins playerInventory =
      (cacheCoins ++ playerInventory.reverse, []) ∧
    (∀ (c : Coin), c ∈ cacheCoins →
        (collect c cacheCoins playerInventory).1 =
            playerInventory ++ [c] ∧
        (collect c cacheCoins playerInventory).2.length + 1 =
            cacheCoins.length) := by
  constructor
  · exact depositLoop_spec playerInventory _ cacheCoins le_rfl
  · intro c hc
    refine ⟨rfl, ?_⟩
    have h := List.length_erase_of_mem hc
    have hpos : 0 < cacheCoins.length := List.length_pos.mpr
      (List.ne_nil_of_mem hc)
    simp only [collect, removeCoin, h]
    omega

/-- Witness for C1 (amended) at concrete inputs: a one-coin deposit and a
collect of the only coin of a one-coin cache. -/
theorem c1_amended_witness :
    deposit [(⟨⟨0, 0⟩, 0, []⟩ : Coin)] [⟨⟨0, 0⟩, 1, []⟩] =
      ([⟨⟨0, 0⟩, 0, []⟩, ⟨⟨0, 0⟩, 1, []⟩], []) ∧
    (collect (⟨⟨0, 0⟩, 0, []⟩ : Coin) [⟨⟨0, 0⟩, 0, []⟩] []).2.length + 1 =
      1 := by
  constructor
  · have h := (c1_amended [(⟨⟨0, 0⟩, 0, []⟩ : Coin)] [⟨⟨0, 0⟩, 1, []⟩]).1
    simpa using h
  · have h := (c1_amended [(⟨⟨0, 0⟩, 0, []⟩ : Coin)] []).2
      ⟨⟨0, 0⟩, 0, []⟩ (by decide)
    simpa using h.2

end Part001
